import Mathlib

/-!
# Verification of `decodeParsedImage` (src/src/decode-image.ts)

Shallow embedding of the pixel-to-elevation decoder of this repository.

Modelling conventions:
* JavaScript numbers are modelled as exact rationals (`ℚ`); the literal
  `0.1` of the source is the rational `1/10`.  The final store into a
  `Float32Array` is a rounding function applied to the computed number;
  since rounding is a function, equality of the exact values implies
  equality of the stored 32-bit floats, so all equations are stated on
  the exact values.
* `NaN` is modelled explicitly by the constructor `JSNum.nan`: reading a
  `Uint8ClampedArray` out of bounds yields `undefined`, and arithmetic
  on `undefined` yields `NaN`, which propagates through the formula.
* A `Float32Array` is a list of `JSNum`, zero-initialised
  (`List.replicate n (JSNum.num 0)`); a write at an out-of-range index
  is silently ignored, exactly the behaviour of `List.set`.
* Since the source mutates the `data` array inside a loop while reading
  the caller's `input` buffer, the loop is embedded by explicit state
  passing over a `DecodeState` carrying both arrays; the frame claim
  about `input` is stated on the final state.
-/

/-- A JavaScript number: either `NaN` or an exact (finite) value. -/
inductive JSNum where
  | nan : JSNum
  | num (q : ℚ) : JSNum
deriving DecidableEq

/-- The `DemTile` result shape of `decodeParsedImage`:
`{ width, height, data }` with `data` a `Float32Array`. -/
structure DemTile where
  width : ℕ
  height : ℕ
  data : List JSNum
deriving DecidableEq

/-- Reading `input[i]` from a `Uint8ClampedArray`: an in-bounds read
yields the byte, an out-of-bounds read yields `undefined` (`none`). -/
def bufRead (input : List ℕ) (i : ℕ) : Option ℕ :=
  input.get? i

/-- The per-pixel decoder selected in `decodeParsedImage`
(src/src/decode-image.ts lines 197-200):
`encoding === "mapbox" ? (r,g,b) => -10000 + (r*256*256 + g*256 + b) * 0.1
                       : (r,g,b) => r*256 + g + b/256 - 32768`.
Any `undefined` channel makes the result `NaN`. -/
def pixelDecoder (encoding : String) (r g b : Option ℕ) : JSNum :=
  match r, g, b with
  | some r, some g, some b =>
    if encoding = "mapbox" then
      JSNum.num (-10000 + ((r : ℚ) * 256 * 256 + (g : ℚ) * 256 + (b : ℚ)) * (1/10))
    else
      JSNum.num ((r : ℚ) * 256 + (g : ℚ) + (b : ℚ) / 256 - 32768)
  | _, _, _ => JSNum.nan

/-- One loop-body evaluation: `decoder(input[i], input[i+1], input[i+2])`
for `i = 4*p` (src line 205). -/
def decodePixel (encoding : String) (input : List ℕ) (p : ℕ) : JSNum :=
  pixelDecoder encoding (bufRead input (4*p)) (bufRead input (4*p+1)) (bufRead input (4*p+2))

/-- The mutable state of the decode loop: the caller's `input` buffer and
the `data` `Float32Array` being filled. -/
structure DecodeState where
  input : List ℕ
  data : List JSNum
deriving DecidableEq

/-- The loop `for (let i = 0; i < input.length; i += 4) data[i/4] = decoder(...)`
(src lines 202-207), indexed by the pixel number `p = i/4` and the
number `n` of remaining iterations.  Writes past the end of `data`
are dropped by `List.set`, as by a typed array. -/
def decodeLoop (encoding : String) : ℕ → ℕ → DecodeState → DecodeState
  | _, 0, s => s
  | p, n+1, s =>
      decodeLoop encoding (p+1) n
        { s with data := s.data.set p (decodePixel encoding s.input p) }

/-- `decodeParsedImage` (src lines 191-210) with the state threaded
explicitly: returns the `DemTile` `{ width, height, data }` together
with the `input` buffer as it stands after the call.  The loop runs
while `4*p < input.length`, i.e. `⌈input.length / 4⌉` times. -/
def decodeParsedImageSt (width height : ℕ) (encoding : String) (input : List ℕ) :
    DemTile × List ℕ :=
  let s := decodeLoop encoding 0 ((input.length + 3) / 4)
    { input := input, data := List.replicate (width * height) (JSNum.num 0) }
  ({ width := width, height := height, data := s.data }, s.input)

/-- The value returned by `decodeParsedImage`. -/
def decodeParsedImage (width height : ℕ) (encoding : String) (input : List ℕ) : DemTile :=
  (decodeParsedImageSt width height encoding input).1

/-! ## Loop lemmas -/

/-- The loop never writes the `input` buffer. -/
theorem decodeLoop_input (encoding : String) :
    ∀ (n p : ℕ) (s : DecodeState), (decodeLoop encoding p n s).input = s.input := by
  intro n
  induction n with
  | zero => intro p s; rfl
  | succ n ih => intro p s; simp [decodeLoop, ih]

/-- The loop preserves the length of `data`. -/
theorem decodeLoop_data_length (encoding : String) :
    ∀ (n p : ℕ) (s : DecodeState),
      (decodeLoop encoding p n s).data.length = s.data.length := by
  intro n
  induction n with
  | zero => intro p s; rfl
  | succ n ih => intro p s; simp [decodeLoop, ih]

/-- Characterisation of the data array produced by the loop: index `j`
holds the decoded pixel `j` when `j` lies in the written window and in
bounds, and is untouched otherwise. -/
theorem decodeLoop_data_get (encoding : String) :
    ∀ (n p : ℕ) (s : DecodeState) (j : ℕ),
      (decodeLoop encoding p n s).data.get? j =
        if p ≤ j ∧ j < p + n ∧ j < s.data.length
        then some (decodePixel encoding s.input j)
        else s.data.get? j := by
  intro n
  induction n with
  | zero =>
    intro p s j
    rw [decodeLoop]
    rw [if_neg (by omega)]
  | succ n ih =>
    intro p s j
    rw [decodeLoop, ih]
    simp only [List.length_set]
    by_cases hj : j = p
    · subst hj
      rw [if_neg (by omega)]
      by_cases hlen : j < s.data.length
      · rw [if_pos ⟨Nat.le_refl j, by omega, hlen⟩]
        simp [List.get?_eq_getElem?, List.getElem?_set_self hlen]
      · rw [if_neg (by omega)]
        rw [List.set_eq_of_length_le (by omega)]
    · have hget : (s.data.set p (decodePixel encoding s.input p)).get? j = s.data.get? j := by
        simp [List.get?_eq_getElem?, List.getElem?_set_ne (by omega : p ≠ j)]
      rw [hget]
      by_cases hc : p ≤ j ∧ j < p + (n+1) ∧ j < s.data.length
      · have hc2 : p + 1 ≤ j ∧ j < p + 1 + n ∧ j < s.data.length := by omega
        rw [if_pos hc2, if_pos hc]
      · have hc2 : ¬ (p + 1 ≤ j ∧ j < p + 1 + n ∧ j < s.data.length) := by omega
        rw [if_neg hc2, if_neg hc]

/-- For a buffer of length exactly `4*w*h`, the loop runs `w*h` times. -/
theorem iterations_of_exact_length (w h : ℕ) : (4 * w * h + 3) / 4 = w * h := by
  have h4 : 4 * w * h = 4 * (w * h) := by ring
  rw [h4]
  omega

/-- Unfolding of the decoder result at pixel `p` of an exact-length buffer. -/
theorem decodeParsedImage_data_get (w h : ℕ) (encoding : String) (input : List ℕ)
    (p : ℕ) (hlen : input.length = 4 * w * h) (hp : p < w * h) :
    (decodeParsedImage w h encoding input).data.get? p =
      some (decodePixel encoding input p) := by
  unfold decodeParsedImage decodeParsedImageSt
  simp only
  rw [decodeLoop_data_get]
  have hn : (input.length + 3) / 4 = w * h := by
    rw [hlen, iterations_of_exact_length]
  rw [hn]
  simp only [List.length_replicate]
  rw [if_pos ⟨Nat.zero_le p, by omega, hp⟩]

/-- In-bounds reads of the input buffer are defined bytes. -/
theorem bufRead_eq_getD (input : List ℕ) (i : ℕ) (hi : i < input.length) :
    bufRead input i = some (input.getD i 0) := by
  unfold bufRead
  cases hg : input.get? i with
  | none =>
    have := List.get?_eq_none.mp hg
    omega
  | some a =>
    rw [List.getD_eq_getElem?_getD, ← List.get?_eq_getElem?, hg]
    rfl

/-- In-bounds reads return an element of the buffer. -/
theorem bufRead_mem (input : List ℕ) (i : ℕ) (hi : i < input.length) :
    ∃ x, bufRead input i = some x ∧ x ∈ input := by
  cases hg : bufRead input i with
  | none =>
    have := List.get?_eq_none.mp hg
    omega
  | some a =>
    exact ⟨a, rfl, List.get?_mem hg⟩

/-- The channel indices of a pixel inside an exact-length buffer are in bounds. -/
theorem channel_lt_length (w h p : ℕ) (input : List ℕ)
    (hlen : input.length = 4 * w * h) (hp : p < w * h) :
    4*p+2 < input.length := by
  have hm : input.length = 4 * (w * h) := by rw [hlen]; ring
  omega

/-! ## Claims -/

/-- C1: for an input of length `4*width*height` and `p < width*height`,
`decodeParsedImage` with the `"mapbox"` encoding stores at index `p` the
value `-10000 + (input[4p]*65536 + input[4p+1]*256 + input[4p+2]) * 0.1`
(JS arithmetic modelled exactly over `ℚ`; the subsequent rounding to a
32-bit float is a function of this exact value, so equal exact values
give equal stored floats). -/
theorem mapbox_decode_correct (w h : ℕ) (input : List ℕ) (p : ℕ)
    (hlen : input.length = 4 * w * h) (hp : p < w * h) :
    (decodeParsedImage w h "mapbox" input).data.get? p =
      some (JSNum.num (-10000 +
        ((input.getD (4*p) 0 : ℚ) * 65536 + (input.getD (4*p+1) 0 : ℚ) * 256 +
          (input.getD (4*p+2) 0 : ℚ)) * (1/10))) := by
  rw [decodeParsedImage_data_get w h "mapbox" input p hlen hp]
  have hb2 : 4*p+2 < input.length := channel_lt_length w h p input hlen hp
  unfold decodePixel
  rw [bufRead_eq_getD input (4*p) (by omega), bufRead_eq_getD input (4*p+1) (by omega),
    bufRead_eq_getD input (4*p+2) hb2]
  simp only [pixelDecoder, if_true]
  congr 1
  ring_nf

/-- C1 witness: pixel bytes (1,2,3) decode to `-10000 + 66051/10 = -3394.9`. -/
theorem mapbox_decode_correct_witness :
    (decodeParsedImage 1 1 "mapbox" [1, 2, 3, 4]).data.get? 0 =
      some (JSNum.num (-33949/10)) := by
  rw [mapbox_decode_correct 1 1 [1, 2, 3, 4] 0 (by decide) (by decide)]
  norm_num

/-- C2: for an input of length `4*width*height` and `p < width*height`,
`decodeParsedImage` with the `"terrarium"` encoding stores at index `p`
the value `input[4p]*256 + input[4p+1] + input[4p+2]/256 - 32768`
(same exact-arithmetic model as C1). -/
theorem terrarium_decode_correct (w h : ℕ) (input : List ℕ) (p : ℕ)
    (hlen : input.length = 4 * w * h) (hp : p < w * h) :
    (decodeParsedImage w h "terrarium" input).data.get? p =
      some (JSNum.num ((input.getD (4*p) 0 : ℚ) * 256 + (input.getD (4*p+1) 0 : ℚ) +
        (input.getD (4*p+2) 0 : ℚ) / 256 - 32768)) := by
  rw [decodeParsedImage_data_get w h "terrarium" input p hlen hp]
  have hb2 : 4*p+2 < input.length := channel_lt_length w h p input hlen hp
  unfold decodePixel
  rw [bufRead_eq_getD input (4*p) (by omega), bufRead_eq_getD input (4*p+1) (by omega),
    bufRead_eq_getD input (4*p+2) hb2]
  simp only [pixelDecoder]
  rw [if_neg (by decide)]

/-- C2 witness: pixel bytes (1,2,3) decode to `256 + 2 + 3/256 - 32768`. -/
theorem terrarium_decode_correct_witness :
    (decodeParsedImage 1 1 "terrarium" [1, 2, 3, 4]).data.get? 0 =
      some (JSNum.num (-8322557/256)) := by
  rw [terrarium_decode_correct 1 1 [1, 2, 3, 4] 0 (by decide) (by decide)]
  norm_num

/-- The per-pixel decoder ignores the encoding string except for testing
equality with `"mapbox"`: any other string selects the terrarium branch. -/
theorem pixelDecoder_ne_mapbox (encoding : String) (henc : encoding ≠ "mapbox")
    (r g b : Option ℕ) :
    pixelDecoder encoding r g b = pixelDecoder "terrarium" r g b := by
  cases r <;> cases g <;> cases b <;>
    simp [pixelDecoder, if_neg henc]

/-- Transfer of `pixelDecoder_ne_mapbox` to the loop body. -/
theorem decodePixel_ne_mapbox (encoding : String) (henc : encoding ≠ "mapbox")
    (input : List ℕ) (p : ℕ) :
    decodePixel encoding input p = decodePixel "terrarium" input p := by
  unfold decodePixel
  rw [pixelDecoder_ne_mapbox encoding henc]

/-- Two encodings whose loop bodies agree produce the same loop results. -/
theorem decodeLoop_encoding_congr (e1 e2 : String)
    (hpix : ∀ (input : List ℕ) (p : ℕ), decodePixel e1 input p = decodePixel e2 input p) :
    ∀ (n p : ℕ) (s : DecodeState), decodeLoop e1 p n s = decodeLoop e2 p n s := by
  intro n
  induction n with
  | zero => intro p s; rfl
  | succ n ih =>
    intro p s
    rw [decodeLoop, decodeLoop, hpix, ih]

/-- C3 counterexample: invoked with the unrecognized encoding
`"invalid"`, `decodeParsedImage` does not fail: it returns a normal
grid, computed with the terrarium formula (source lines 197-200 select
the terrarium branch for every encoding other than `"mapbox"`). -/
theorem invalid_encoding_no_failure :
    decodeParsedImage 1 1 "invalid" [1, 2, 3, 4] =
      decodeParsedImage 1 1 "terrarium" [1, 2, 3, 4] ∧
    (decodeParsedImage 1 1 "invalid" [1, 2, 3, 4]).data.get? 0 =
      some (JSNum.num ((1 : ℚ) * 256 + 2 + 3 / 256 - 32768)) := by
  constructor
  · rfl
  · have henc : ("invalid" : String) ≠ "mapbox" := by decide
    norm_num [decodeParsedImage, decodeParsedImageSt, decodeLoop, decodePixel,
      pixelDecoder, bufRead, henc]

/-- C3 amended: an unrecognized encoding identifier is not rejected; the
decoder silently falls back to the terrarium formula, so any encoding
other than `"mapbox"` yields exactly the `"terrarium"` result. -/
theorem unrecognized_encoding_defaults_to_terrarium (w h : ℕ) (encoding : String)
    (input : List ℕ) (henc : encoding ≠ "mapbox") :
    decodeParsedImage w h encoding input = decodeParsedImage w h "terrarium" input := by
  unfold decodeParsedImage decodeParsedImageSt
  simp only
  rw [decodeLoop_encoding_congr encoding "terrarium"
    (fun input p => decodePixel_ne_mapbox encoding henc input p)]

/-- C3 amended-claim witness at the concrete encoding `"invalid"`. -/
theorem unrecognized_encoding_defaults_to_terrarium_witness :
    decodeParsedImage 2 1 "invalid" [0, 0, 0, 0, 255, 255, 255, 255] =
      decodeParsedImage 2 1 "terrarium" [0, 0, 0, 0, 255, 255, 255, 255] :=
  unrecognized_encoding_defaults_to_terrarium 2 1 "invalid"
    [0, 0, 0, 0, 255, 255, 255, 255] (by decide)

/-- C4: for every encoding, decoding a zero-by-zero image with an empty
buffer returns the zero-sized grid `{ width := 0, height := 0, data := [] }`;
`decodeParsedImage` is a total function, so no error is raised. -/
theorem empty_buffer_zero_grid (encoding : String) :
    decodeParsedImage 0 0 encoding [] =
      { width := 0, height := 0, data := ([] : List JSNum) } :=
  rfl

/-- C5: on a well-formed input (bytes in [0,255], length `4*w*h`) the
decoder has no error case and every produced element is a finite value:
an exact rational — never `NaN` — lying in `[-32768, 1667722]`, far
inside the finite range of a 32-bit float. -/
theorem decode_all_finite (w h : ℕ) (encoding : String) (input : List ℕ) (p : ℕ)
    (hbytes : ∀ b ∈ input, b ≤ 255) (hlen : input.length = 4 * w * h)
    (hp : p < w * h) :
    ∃ q : ℚ, (decodeParsedImage w h encoding input).data.get? p =
        some (JSNum.num q) ∧ -32768 ≤ q ∧ q ≤ 1667722 := by
  rw [decodeParsedImage_data_get w h encoding input p hlen hp]
  have hb2 : 4*p+2 < input.length := channel_lt_length w h p input hlen hp
  obtain ⟨r, hr, hrmem⟩ := bufRead_mem input (4*p) (by omega)
  obtain ⟨g, hg, hgmem⟩ := bufRead_mem input (4*p+1) (by omega)
  obtain ⟨b, hb, hbmem⟩ := bufRead_mem input (4*p+2) hb2
  unfold decodePixel
  rw [hr, hg, hb]
  have hr255 : (r : ℚ) ≤ 255 := by exact_mod_cast hbytes r hrmem
  have hg255 : (g : ℚ) ≤ 255 := by exact_mod_cast hbytes g hgmem
  have hb255 : (b : ℚ) ≤ 255 := by exact_mod_cast hbytes b hbmem
  have hr0 : (0:ℚ) ≤ (r : ℚ) := Nat.cast_nonneg r
  have hg0 : (0:ℚ) ≤ (g : ℚ) := Nat.cast_nonneg g
  have hb0 : (0:ℚ) ≤ (b : ℚ) := Nat.cast_nonneg b
  simp only [pixelDecoder]
  by_cases he : encoding = "mapbox"
  · rw [if_pos he]
    exact ⟨_, rfl, by linarith, by linarith⟩
  · rw [if_neg he]
    exact ⟨_, rfl, by linarith, by linarith⟩

/-- C5 witness at a concrete all-255 mapbox tile. -/
theorem decode_all_finite_witness :
    ∃ q : ℚ, (decodeParsedImage 1 1 "mapbox" [255, 255, 255, 255]).data.get? 0 =
        some (JSNum.num q) ∧ -32768 ≤ q ∧ q ≤ 1667722 :=
  decode_all_finite 1 1 "mapbox" [255, 255, 255, 255] 0 (by decide) (by decide) (by decide)

/-- Buffers that agree on all non-alpha bytes have equal reads at every
non-alpha index. -/
theorem rgb_agree_get (input1 input2 : List ℕ)
    (hlen : input1.length = input2.length)
    (hrgb : ∀ i, i < input1.length → i % 4 ≠ 3 → input1.getD i 0 = input2.getD i 0)
    (i : ℕ) (hi4 : i % 4 ≠ 3) :
    input1.get? i = input2.get? i := by
  by_cases hi : i < input1.length
  · have h1 : input1.get? i = some (input1.getD i 0) := bufRead_eq_getD input1 i hi
    have h2 : input2.get? i = some (input2.getD i 0) :=
      bufRead_eq_getD input2 i (by omega)
    rw [h1, h2, hrgb i hi hi4]
  · rw [List.get?_eq_none.mpr (by omega), List.get?_eq_none.mpr (by omega)]

/-- Buffers with pointwise-equal loop bodies give equal loop results. -/
theorem decodeLoop_input_congr (encoding : String) (input1 input2 : List ℕ)
    (hpix : ∀ p, decodePixel encoding input1 p = decodePixel encoding input2 p) :
    ∀ (n p : ℕ) (d : List JSNum),
      (decodeLoop encoding p n ⟨input1, d⟩).data =
        (decodeLoop encoding p n ⟨input2, d⟩).data := by
  intro n
  induction n with
  | zero => intro p d; rfl
  | succ n ih =>
    intro p d
    rw [decodeLoop, decodeLoop]
    dsimp only
    rw [hpix p]
    exact ih (p+1) (d.set p (decodePixel encoding input2 p))

/-- C6: the alpha channel is ignored — two equal-length buffers that
agree on every byte whose index is not `4p+3` (i.e. on the R, G, B bytes
of every pixel) decode to identical grids, for every encoding and
width/height. -/
theorem alpha_ignored (w h : ℕ) (encoding : String) (input1 input2 : List ℕ)
    (hlen : input1.length = input2.length)
    (hrgb : ∀ i, i < input1.length → i % 4 ≠ 3 → input1.getD i 0 = input2.getD i 0) :
    decodeParsedImage w h encoding input1 = decodeParsedImage w h encoding input2 := by
  have hpix : ∀ p, decodePixel encoding input1 p = decodePixel encoding input2 p := by
    intro p
    unfold decodePixel bufRead
    rw [rgb_agree_get input1 input2 hlen hrgb (4*p) (by omega),
      rgb_agree_get input1 input2 hlen hrgb (4*p+1) (by omega),
      rgb_agree_get input1 input2 hlen hrgb (4*p+2) (by omega)]
  unfold decodeParsedImage decodeParsedImageSt
  simp only
  rw [hlen]
  exact congrArg (fun d => DemTile.mk w h d)
    (decodeLoop_input_congr encoding input1 input2 hpix ((input2.length + 3) / 4) 0
      (List.replicate (w * h) (JSNum.num 0)))

/-- C6 witness: flipping only the alpha byte does not change the grid. -/
theorem alpha_ignored_witness :
    decodeParsedImage 1 1 "mapbox" [10, 20, 30, 0] =
      decodeParsedImage 1 1 "mapbox" [10, 20, 30, 255] :=
  alpha_ignored 1 1 "mapbox" [10, 20, 30, 0] [10, 20, 30, 255] rfl (by decide)

/-- C7: decoding is deterministic and pure — the embedding threads every
piece of state the source touches (the input buffer and the data array)
explicitly, so `decodeParsedImage` is a function of its four arguments
alone, and identical arguments give identical `DemTile` results. -/
theorem decode_deterministic (w1 h1 w2 h2 : ℕ) (e1 e2 : String) (i1 i2 : List ℕ)
    (hw : w1 = w2) (hh : h1 = h2) (he : e1 = e2) (hi : i1 = i2) :
    decodeParsedImage w1 h1 e1 i1 = decodeParsedImage w2 h2 e2 i2 := by
  subst hw
  subst hh
  subst he
  subst hi
  rfl

/-- C7 witness at concrete identical arguments. -/
theorem decode_deterministic_witness :
    decodeParsedImage 1 1 "mapbox" [1, 2, 3, 4] =
      decodeParsedImage 1 1 "mapbox" [1, 2, 3, 4] :=
  decode_deterministic 1 1 1 1 "mapbox" "mapbox" [1, 2, 3, 4] [1, 2, 3, 4]
    rfl rfl rfl rfl

/-- C8: the decoder only reads the caller's pixel buffer: in the
state-passing embedding, the input buffer after `decodeParsedImage`
returns is byte-for-byte the buffer that was passed in (the source loop
writes only the `data` array, never `input`). -/
theorem input_buffer_unchanged (w h : ℕ) (encoding : String) (input : List ℕ) :
    (decodeParsedImageSt w h encoding input).2 = input := by
  unfold decodeParsedImageSt
  simp only
  rw [decodeLoop_input]

/-- C9: each pixel is processed independently — on exact-length buffers,
`data[p]` depends only on the three bytes `input[4p]`, `input[4p+1]`,
`input[4p+2]`: any change confined to other pixels leaves `data[p]`
unchanged. -/
theorem pixel_locality (w h : ℕ) (encoding : String) (input1 input2 : List ℕ)
    (p : ℕ) (hlen1 : input1.length = 4 * w * h) (hlen2 : input2.length = 4 * w * h)
    (hp : p < w * h)
    (hr : input1.get? (4*p) = input2.get? (4*p))
    (hg : input1.get? (4*p+1) = input2.get? (4*p+1))
    (hb : input1.get? (4*p+2) = input2.get? (4*p+2)) :
    (decodeParsedImage w h encoding input1).data.get? p =
      (decodeParsedImage w h encoding input2).data.get? p := by
  rw [decodeParsedImage_data_get w h encoding input1 p hlen1 hp,
    decodeParsedImage_data_get w h encoding input2 p hlen2 hp]
  unfold decodePixel bufRead
  rw [hr, hg, hb]

/-- C9 witness: rewriting every byte of pixel 1 leaves `data[0]` intact. -/
theorem pixel_locality_witness :
    (decodeParsedImage 2 1 "mapbox" [1, 2, 3, 4, 5, 6, 7, 8]).data.get? 0 =
      (decodeParsedImage 2 1 "mapbox" [1, 2, 3, 4, 9, 9, 9, 9]).data.get? 0 :=
  pixel_locality 2 1 "mapbox" [1, 2, 3, 4, 5, 6, 7, 8] [1, 2, 3, 4, 9, 9, 9, 9] 0
    (by decide) (by decide) (by decide) rfl rfl rfl

/-- Index `p` of the output holds the initial zero when the input has no
byte for pixel `p`. -/
theorem decodeParsedImage_default (w h : ℕ) (encoding : String) (input : List ℕ)
    (p : ℕ) (hp : p < w * h) (hnone : input.length ≤ 4 * p) :
    (decodeParsedImage w h encoding input).data.get? p = some (JSNum.num 0) := by
  unfold decodeParsedImage decodeParsedImageSt
  simp only
  rw [decodeLoop_data_get]
  rw [if_neg (by omega)]
  simp only [List.length_replicate] at hp ⊢
  rw [List.get?_eq_getElem?, List.getElem?_replicate, if_pos hp]

/-- Input bytes at indices `≥ 4*w*h` never influence the result: the
corresponding writes land past the end of the `data` array and are
dropped. -/
theorem decode_ignores_extra_bytes (w h : ℕ) (encoding : String)
    (input1 input2 : List ℕ)
    (hagree : ∀ i, i < 4 * w * h → input1.get? i = input2.get? i) :
    decodeParsedImage w h encoding input1 = decodeParsedImage w h encoding input2 := by
  have hm : 4 * w * h = 4 * (w * h) := by ring
  have hiff : ∀ j, j < w * h → (4*j < input1.length ↔ 4*j < input2.length) := by
    intro j hj
    have h4j : 4*j < 4 * w * h := by rw [hm]; omega
    constructor
    · intro h1
      by_contra h2
      have h2n : input2.get? (4*j) = none := List.get?_eq_none.mpr (by omega)
      have h1n : input1.get? (4*j) = none := by rw [hagree (4*j) h4j, h2n]
      have := List.get?_eq_none.mp h1n
      omega
    · intro h2
      by_contra h1
      have h1n : input1.get? (4*j) = none := List.get?_eq_none.mpr (by omega)
      have h2n : input2.get? (4*j) = none := by rw [← hagree (4*j) h4j, h1n]
      have := List.get?_eq_none.mp h2n
      omega
  have hdata : ∀ j, (decodeParsedImage w h encoding input1).data.get? j
      = (decodeParsedImage w h encoding input2).data.get? j := by
    intro j
    unfold decodeParsedImage decodeParsedImageSt
    simp only
    rw [decodeLoop_data_get, decodeLoop_data_get]
    simp only [List.length_replicate]
    by_cases hj : j < w * h
    · by_cases hw1 : 4*j < input1.length
      · have hw2 : 4*j < input2.length := (hiff j hj).mp hw1
        rw [if_pos ⟨Nat.zero_le j, by omega, hj⟩, if_pos ⟨Nat.zero_le j, by omega, hj⟩]
        have h4j2 : 4*j+2 < 4 * w * h := by rw [hm]; omega
        unfold decodePixel bufRead
        rw [hagree (4*j) (by omega), hagree (4*j+1) (by omega), hagree (4*j+2) h4j2]
      · have hw2 : ¬ 4*j < input2.length := fun hin => hw1 ((hiff j hj).mpr hin)
        rw [if_neg (by omega), if_neg (by omega)]
    · rw [if_neg (by omega), if_neg (by omega)]
  have hd := List.ext_get? hdata
  unfold decodeParsedImage decodeParsedImageSt at hd ⊢
  simp only at hd ⊢
  rw [hd]

/-- C10: `decodeParsedImage` is total for every width, height, encoding
and buffer length (the embedding is a total function — no exception
path): the result has the requested width and height and a data array of
length exactly `width*height`; a pixel with no input bytes keeps the
`Float32Array` default value `0`; and bytes beyond `4*width*height`
never influence the result. -/
theorem decode_total_shape (w h : ℕ) (encoding : String) (input : List ℕ) :
    ((decodeParsedImage w h encoding input).width = w ∧
     (decodeParsedImage w h encoding input).height = h ∧
     (decodeParsedImage w h encoding input).data.length = w * h) ∧
    (∀ p, p < w * h → input.length ≤ 4 * p →
      (decodeParsedImage w h encoding input).data.get? p = some (JSNum.num 0)) ∧
    (∀ input2 : List ℕ, (∀ i, i < 4 * w * h → input.get? i = input2.get? i) →
      decodeParsedImage w h encoding input = decodeParsedImage w h encoding input2) := by
  refine ⟨⟨rfl, rfl, ?_⟩, ?_, ?_⟩
  · unfold decodeParsedImage decodeParsedImageSt
    simp only
    rw [decodeLoop_data_length]
    simp
  · exact fun p hp hnone => decodeParsedImage_default w h encoding input p hp hnone
  · exact fun input2 hagree => decode_ignores_extra_bytes w h encoding input input2 hagree

/-- C10 witness: a 5-byte buffer for a 1x1 tile decodes without error to
a 1-element grid, the trailing byte is ignored, and an empty buffer
leaves the pixel at the default 0. -/
theorem decode_total_shape_witness :
    (decodeParsedImage 1 1 "mapbox" [5, 6, 7, 8, 9]).data.length = 1 ∧
    (decodeParsedImage 1 1 "mapbox" []).data.get? 0 = some (JSNum.num 0) ∧
    decodeParsedImage 1 1 "mapbox" [5, 6, 7, 8, 9] =
      decodeParsedImage 1 1 "mapbox" [5, 6, 7, 8] :=
  ⟨(decode_total_shape 1 1 "mapbox" [5, 6, 7, 8, 9]).1.2.2,
   (decode_total_shape 1 1 "mapbox" []).2.1 0 (by decide) (by decide),
   (decode_total_shape 1 1 "mapbox" [5, 6, 7, 8, 9]).2.2 [5, 6, 7, 8] (by decide)⟩
